import Mathlib

/-!
A shallow embedding of the batch retrieval and reconciliation engine in
`src/fetch.py` (functions `fetch_uniprot_data`, `split_ids_from_descriptions`,
`process_batch`, `main`), together with theorems settling the spec claims.

Modelling conventions:
* Python strings are Lean `String`s; tab-separated response text is modelled as
  a list of lines already split on tabs (`List (List String)`), since the code
  only ever consumes lines after splitting them on `"\t"`.
* Python's single-character `str.split` / `in` / `join` are modelled by
  character-list recursions (`chSplit`, `chContains`, `chIntercalate` below),
  which have exactly Python's semantics for a one-character separator and are
  structurally recursive, hence kernel-computable.
* The HTTP layer is a function from attempt number to an abstract `Response`;
  `time.sleep` has no observable effect on the values computed and is omitted.
* Thread-pool nondeterminism in `main` is modelled by an explicit consumption
  order for each round's futures (`as_completed` yields some permutation of the
  submitted futures); theorems either quantify over all orders or instantiate a
  concrete valid order.
-/

namespace Funlink

/-- `ID_FIELDS` from fetch.py: field names whose values are split into
id/description pairs. -/
def ID_FIELDS : List String :=
  ["ec", "go_p", "go_c", "go", "go_f", "go_id", "rhea", "keyword", "keywordid"]

/-- `BATCH_SIZE = 10` from fetch.py. -/
def BATCH_SIZE : Nat := 10

/-- `MAX_RETRIES = 3` from fetch.py. -/
def MAX_RETRIES : Nat := 3

/-- Python `sep in s` for a one-character separator. -/
def chContains (sep : Char) (s : String) : Bool := s.data.contains sep

/-- Python `s.split(sep)` for a one-character separator, at the level of
character lists: `"" ↦ [""]`, `";" ↦ ["",""]`, etc. -/
def chSplit (sep : Char) : List Char → List (List Char)
  | [] => [[]]
  | c :: cs =>
    if c = sep then [] :: chSplit sep cs
    else
      match chSplit sep cs with
      | [] => [[c]]
      | p :: ps => (c :: p) :: ps

/-- Python `sep.join(parts)` for a one-character separator. -/
def chIntercalate (sep : Char) : List (List Char) → List Char
  | [] => []
  | [p] => p
  | p :: q :: ps => p ++ sep :: chIntercalate sep (q :: ps)

/-- Python `s.split(sep)` returning strings. -/
def pySplit (sep : Char) (s : String) : List String :=
  (chSplit sep s.data).map (fun l => String.mk l)

/-- Python `sep.join(ss)`. -/
def pyJoin (sep : Char) (ss : List String) : String :=
  String.mk (chIntercalate sep (ss.map String.data))

/-- Python `x.split(sep)[0]`: the characters before the first separator. -/
def chBeforeFirst (sep : Char) : List Char → List Char
  | [] => []
  | c :: cs => if c = sep then [] else c :: chBeforeFirst sep cs

/-- Python `x.split(sep, 1)[1]` when `sep in x`: everything after the first
separator. -/
def chAfterFirst (sep : Char) : List Char → List Char
  | [] => []
  | c :: cs => if c = sep then cs else chAfterFirst sep cs

/-! ### split_ids_from_descriptions (fetch.py lines 70-96) -/

/-- The `ids` expression of fetch.py line 81:
`";".join([x.split(" ")[0] for x in value.split(";")])`. -/
def idsPart (value : String) : String :=
  pyJoin ';' ((pySplit ';' value).map (fun x => String.mk (chBeforeFirst ' ' x.data)))

/-- The `desc` expression of fetch.py line 82:
`";".join([x.split(" ", 1)[1] if " " in x else x for x in value.split(";")])`. -/
def descPart (value : String) : String :=
  pyJoin ';' ((pySplit ';' value).map
    (fun x => if chContains ' ' x then String.mk (chAfterFirst ' ' x.data) else x))

/-- The cells appended to `new_row` for one `(col_name, value)` pair
(fetch.py lines 80-90): two derived cells when the column is an ID field whose
value contains `";"`, otherwise the value itself, with the empty string
replaced by the sentinel `"no information"` in both branches. -/
def splitCell (col_name value : String) : List String :=
  if col_name ∈ ID_FIELDS ∧ chContains ';' value = true then
    [if idsPart value = "" then "no information" else idsPart value,
     if descPart value = "" then "no information" else descPart value]
  else
    [if value = "" then "no information" else value]

/-- The update of `updated_header` for one `(col_name, value)` pair
(fetch.py lines 86-88 and 91-92): append `<col>_id`/`<col>_desc` when the pair
is split and `<col>_id` is absent, otherwise append `col_name` when absent. -/
def headerAdd (col_name value : String) (updated_header : List String) : List String :=
  if col_name ∈ ID_FIELDS ∧ chContains ';' value = true then
    if (col_name ++ "_id") ∈ updated_header then updated_header
    else updated_header ++ [col_name ++ "_id", col_name ++ "_desc"]
  else
    if col_name ∈ updated_header then updated_header
    else updated_header ++ [col_name]

/-- The inner loop of split_ids_from_descriptions over one row, threading
`updated_header` (fetch.py lines 76-92): for each `(col_name, value)` pair
append `splitCell` cells to the row being built and update the header. -/
def procPairs : List (String × String) → List String → List String × List String
  | [], updated_header => ([], updated_header)
  | (col_name, value) :: rest, updated_header =>
    let done := procPairs rest (headerAdd col_name value updated_header)
    (splitCell col_name value ++ done.1, done.2)

/-- The outer loop of split_ids_from_descriptions over all rows (fetch.py
lines 75-94), threading `updated_header` across rows; each row is traversed
via `enumerate(row)` with `col_name = header[i]`, i.e. over `header.zip row`. -/
def splitRowsAux : List (List String) → List String → List String →
    List (List String) × List String
  | [], _, updated_header => ([], updated_header)
  | row :: rest, header, updated_header =>
    let p := procPairs (header.zip row) updated_header
    let done := splitRowsAux rest header p.2
    (p.1 :: done.1, done.2)

/-- fetch.py `split_ids_from_descriptions(rows, header)`: returns
`(updated_header, updated_rows)`. -/
def split_ids_from_descriptions (rows : List (List String)) (header : List String) :
    List String × List (List String) :=
  let p := splitRowsAux rows header []
  (p.2, p.1)

/-! ### fetch_uniprot_data (fetch.py lines 38-67) -/

/-- One HTTP response, as far as fetch.py observes it: a 200 whose
tab-separated body is a header line plus data lines, a 429, or any other
status code. -/
inductive Response where
  | ok (lines : List (List String))
  | rateLimited
  | error (code : Nat)
deriving DecidableEq

/-- fetch.py line 52: `{line.split("\t")[0] for line in result[1:]}` — the
leading field of every data line. -/
def retrievedIds (lines : List (List String)) : List String :=
  (lines.drop 1).map (fun line => line.headD "")

/-- fetch.py line 55: `set(uniprot_batch) - retrieved_ids`, modelled as an
order-preserving filter (Python materialises the set difference in
unspecified order; all claims treat it as a set). -/
def missingIdsOf (uniprot_batch retrieved_ids : List String) : List String :=
  uniprot_batch.filter (fun uid => decide (uid ∉ retrieved_ids))

/-- The retry loop of fetch_uniprot_data (fetch.py lines 46-67), with
`fuel = MAX_RETRIES - attempt` making the `while attempt < MAX_RETRIES` loop
structural. `service` maps the attempt number to the response received.
On 200 with a missing subset: `(none, missing)`; on 200 with none missing:
`(some lines, [])`; on 429: sleep (unobservable) and retry the same batch with
`attempt + 1`; on any other status: `(none, uniprot_batch)`; when attempts are
exhausted: `(none, uniprot_batch)`. -/
def fetchAux (uniprot_batch : List String) (service : Nat → Response) :
    Nat → Nat → Option (List (List String)) × List String
  | _, 0 => (none, uniprot_batch)
  | attempt, fuel + 1 =>
    match service attempt with
    | .ok lines =>
      let missing_ids := missingIdsOf uniprot_batch (retrievedIds lines)
      if missing_ids.isEmpty then (some lines, []) else (none, missing_ids)
    | .rateLimited => fetchAux uniprot_batch service (attempt + 1) fuel
    | .error _ => (none, uniprot_batch)

/-- fetch.py `fetch_uniprot_data(uniprot_batch)`: the retry loop started at
`attempt = 0` with `MAX_RETRIES` attempts available. -/
def fetch_uniprot_data (uniprot_batch : List String) (service : Nat → Response) :
    Option (List (List String)) × List String :=
  fetchAux uniprot_batch service 0 MAX_RETRIES

/-! ### process_batch (fetch.py lines 99-119) -/

/-- fetch.py `process_batch(uniprot_batch, writer, header_written)`: returns
`(lines written to the output, missing_ids, header_written')`. On a successful
fetch the raw header is `lines[0]`, the rows are `lines[1:]`; after
`split_ids_from_descriptions`, if the header has not been written this call
writes `["Unique ID"] + updated_header[1:]` and sets the flag, then writes the
formatted rows. On a failed fetch nothing is written and the flag is returned
unchanged. -/
def process_batch (uniprot_batch : List String) (service : Nat → Response)
    (header_written : Bool) : List (List String) × List String × Bool :=
  match fetch_uniprot_data uniprot_batch service with
  | (some lines, missing_ids) =>
    let raw_header := lines.headD []
    let rows := lines.drop 1
    let p := split_ids_from_descriptions rows raw_header
    let headerOut := if header_written then [] else [["Unique ID"] ++ p.1.drop 1]
    (headerOut ++ p.2, missing_ids, true)
  | (none, missing_ids) => ([], missing_ids, header_written)

/-! ### main (fetch.py lines 122-150) -/

/-- Fueled form of the batch comprehension of fetch.py line 140,
`[ids[i:i+B] for i in range(0, len(ids), B)]` for `B > 0`: peel off the first
`B` elements and recurse. The fuel (instantiated with the list's length, an
upper bound on the recursion depth) keeps the recursion structural, hence
kernel-computable. -/
def makeBatchesF (B : Nat) : Nat → List String → List (List String)
  | _, [] => []
  | 0, _ :: _ => []
  | fuel + 1, x :: xs => (x :: xs.take (B - 1)) :: makeBatchesF B fuel (xs.drop (B - 1))

/-- The batch computation of fetch.py line 140 (the BatchPlanner). -/
def makeBatches (B : Nat) (l : List String) : List (List String) :=
  makeBatchesF B l.length l

/-- One round of main's while loop (fetch.py lines 139-148): compute the
batches from the current `all_missing_ids`, submit `process_batch` for each —
every future receives the *same* `header_written` value, the one current at
submission — then consume the futures in the order given by `order` (a
permutation of batch indices models `as_completed`), with each consumed result
*overwriting* `all_missing_ids` and `header_written` (fetch.py lines 144-145).
`svc` assigns each batch its attempt-indexed response behaviour for this
round. Returns `(output lines in consumption order, final all_missing_ids,
final header_written)`. -/
def runRound (svc : List String → Nat → Response) (all_missing_ids : List String)
    (header_written : Bool) (order : List Nat) :
    List (List String) × List String × Bool :=
  let batches := makeBatches BATCH_SIZE all_missing_ids
  let results := batches.map (fun b => process_batch b (svc b) header_written)
  let consumed := order.filterMap (fun i => results.get? i)
  let output := (consumed.map (fun r => r.1)).flatten
  let fin := consumed.foldl (fun _ r => (r.2.1, r.2.2)) (all_missing_ids, header_written)
  (output, fin.1, fin.2)

/-- The while loop of main (fetch.py lines 138-148), with explicit round
counter, fuel bounding how many rounds we are willing to run, and an
accumulator for the output lines. `some out` means the loop terminated
(because `all_missing_ids` became empty) having written `out`; `none` means
the fuel ran out with the loop still active. `orders` gives each round's
future-consumption order. -/
def mainLoop (svc : Nat → List String → Nat → Response) (orders : Nat → List Nat) :
    Nat → Nat → List String → Bool → List (List String) → Option (List (List String))
  | 0, _, _, _, _ => none
  | fuel + 1, round, all_missing_ids, header_written, out =>
    if all_missing_ids.isEmpty then some out
    else
      let r := runRound (svc round) all_missing_ids header_written (orders round)
      mainLoop svc orders fuel (round + 1) r.2.1 r.2.2 (out ++ r.1)

/-- fetch.py `main`: start with `all_missing_ids = uniprot_ids`,
`header_written = False`, empty output. -/
def mainModel (svc : Nat → List String → Nat → Response) (orders : Nat → List Nat)
    (uniprot_ids : List String) (fuel : Nat) : Option (List (List String)) :=
  mainLoop svc orders fuel 0 uniprot_ids false []

/-! ### Helper lemmas about the batch computation -/

theorem makeBatchesF_nil (B fuel : Nat) : makeBatchesF B fuel [] = [] := by
  cases fuel <;> rfl

theorem makeBatchesF_flatten (B : Nat) :
    ∀ fuel l, l.length ≤ fuel → (makeBatchesF B fuel l).flatten = l := by
  intro fuel
  induction fuel with
  | zero =>
    intro l hl
    cases l with
    | nil => rfl
    | cons x xs => simp at hl
  | succ n ih =>
    intro l hl
    cases l with
    | nil => rfl
    | cons x xs =>
      simp only [makeBatchesF, List.flatten_cons]
      rw [ih (xs.drop (B - 1)) (by simp only [List.length_drop]; simp at hl; omega)]
      simp [List.take_append_drop]

theorem makeBatchesF_length (B : Nat) (hB : 0 < B) :
    ∀ fuel l, l.length ≤ fuel → (makeBatchesF B fuel l).length = (l.length + B - 1) / B := by
  intro fuel
  induction fuel with
  | zero =>
    intro l hl
    cases l with
    | nil =>
      simp only [makeBatchesF, List.length_nil]
      rw [Nat.div_eq_of_lt (by omega)]
    | cons x xs => simp at hl
  | succ n ih =>
    intro l hl
    cases l with
    | nil =>
      simp only [makeBatchesF, List.length_nil]
      rw [Nat.div_eq_of_lt (by omega)]
    | cons x xs =>
      simp only [makeBatchesF, List.length_cons]
      rw [ih (xs.drop (B - 1)) (by simp only [List.length_drop]; simp at hl; omega)]
      simp only [List.length_drop]
      have hxB : xs.length + 1 + B - 1 = xs.length + B := by omega
      rw [hxB, Nat.add_div_right _ hB]
      rcases le_or_lt xs.length (B - 1) with hle | hlt
      · have h1 : xs.length - (B - 1) = 0 := by omega
        rw [h1, Nat.zero_add, Nat.div_eq_of_lt (by omega), Nat.div_eq_of_lt (by omega)]
      · have h1 : xs.length - (B - 1) + B - 1 = xs.length := by omega
        rw [h1]

theorem makeBatchesF_sizes (B : Nat) (hB : 0 < B) :
    ∀ fuel l, ∀ b ∈ makeBatchesF B fuel l, b.length ≤ B := by
  intro fuel
  induction fuel with
  | zero =>
    intro l b hb
    cases l with
    | nil => simp [makeBatchesF] at hb
    | cons x xs => simp [makeBatchesF] at hb
  | succ n ih =>
    intro l b hb
    cases l with
    | nil => simp [makeBatchesF] at hb
    | cons x xs =>
      simp only [makeBatchesF, List.mem_cons] at hb
      rcases hb with hb | hb
      · subst hb
        simp only [List.length_cons, List.length_take]
        omega
      · exact ih _ b hb

theorem makeBatchesF_mem_ne_nil (B : Nat) :
    ∀ fuel l, ∀ b ∈ makeBatchesF B fuel l, b ≠ [] := by
  intro fuel
  induction fuel with
  | zero =>
    intro l b hb
    cases l with
    | nil => simp [makeBatchesF] at hb
    | cons x xs => simp [makeBatchesF] at hb
  | succ n ih =>
    intro l b hb
    cases l with
    | nil => simp [makeBatchesF] at hb
    | cons x xs =>
      simp only [makeBatchesF, List.mem_cons] at hb
      rcases hb with hb | hb
      · subst hb; simp
      · exact ih _ b hb

theorem makeBatchesF_nonlast (B : Nat) (hB : 0 < B) :
    ∀ fuel l, l.length ≤ fuel → ∀ i, i + 1 < (makeBatchesF B fuel l).length →
      ((makeBatchesF B fuel l).getD i []).length = B := by
  intro fuel
  induction fuel with
  | zero =>
    intro l hl i hi
    cases l with
    | nil => simp [makeBatchesF] at hi
    | cons x xs => simp at hl
  | succ n ih =>
    intro l hl i hi
    cases l with
    | nil => simp [makeBatchesF] at hi
    | cons x xs =>
      simp only [makeBatchesF, List.length_cons] at hi ⊢
      have hdl : (xs.drop (B - 1)).length ≤ n := by
        simp only [List.length_drop]; simp at hl; omega
      cases i with
      | zero =>
        have hrest : makeBatchesF B n (xs.drop (B - 1)) ≠ [] := by
          intro hemp
          rw [hemp] at hi
          simp at hi
        have hxs : ¬ xs.length ≤ B - 1 := by
          intro hle
          exact hrest (by rw [List.drop_eq_nil_iff.mpr (by omega)]; exact makeBatchesF_nil B n)
        simp only [List.getD_cons_zero, List.length_cons, List.length_take]
        omega
      | succ j =>
        simp only [List.getD_cons_succ]
        exact ih (xs.drop (B - 1)) hdl j (by omega)

/-! ### Helper lemmas about the fetch retry loop -/

theorem fetchAux_congr (b : List String) :
    ∀ fuel a (s s' : Nat → Response), (∀ i, a ≤ i → i < a + fuel → s i = s' i) →
      fetchAux b s a fuel = fetchAux b s' a fuel := by
  intro fuel
  induction fuel with
  | zero => intro a s s' _; rfl
  | succ n ih =>
    intro a s s' hagree
    simp only [fetchAux]
    rw [hagree a le_rfl (by omega)]
    cases s' a with
    | ok lines => rfl
    | rateLimited => exact ih (a + 1) s s' (fun i h1 h2 => hagree i (by omega) (by omega))
    | error code => rfl

theorem fetchAux_allRateLimited (b : List String) :
    ∀ fuel a (s : Nat → Response), (∀ i, a ≤ i → i < a + fuel → s i = Response.rateLimited) →
      fetchAux b s a fuel = (none, b) := by
  intro fuel
  induction fuel with
  | zero => intro a s _; rfl
  | succ n ih =>
    intro a s hrl
    simp only [fetchAux]
    rw [hrl a le_rfl (by omega)]
    exact ih (a + 1) s (fun i h1 h2 => hrl i (by omega) (by omega))

theorem fetchAux_errorAfterRateLimits (b : List String) :
    ∀ fuel a (s : Nat → Response) j c, a ≤ j → j < a + fuel →
      (∀ i, a ≤ i → i < j → s i = Response.rateLimited) → s j = Response.error c →
      fetchAux b s a fuel = (none, b) := by
  intro fuel
  induction fuel with
  | zero => intro a s j c h1 h2 _ _; omega
  | succ n ih =>
    intro a s j c haj hjf hrl herr
    simp only [fetchAux]
    rcases eq_or_lt_of_le haj with heq | hlt
    · rw [← heq] at herr
      rw [herr]
    · rw [hrl a le_rfl hlt]
      exact ih (a + 1) s j c hlt (by omega) (fun i hi1 hi2 => hrl i (by omega) hi2) herr

/-! ### Helper lemmas about the missing-id computation -/

theorem missingIdsOf_toFinset (l r : List String) :
    (missingIdsOf l r).toFinset = l.toFinset \ r.toFinset := by
  ext x
  simp [missingIdsOf, List.mem_filter]

/-! ### Claim theorems: C7, C8, C4 -/

/-- C7 (confirmed). BatchPlanner contract: for every identifier list `l` and
batch size `B > 0`, the batch computation of fetch.py line 140 produces
`⌈N/B⌉` batches whose in-order concatenation equals the input exactly, every
batch has size ≤ `B` with only the last possibly smaller (all non-last batches
have size exactly `B`), and empty input yields zero batches. The function is a
pure Lean function, hence pure and deterministic. -/
theorem batchPlannerContract (B : Nat) (l : List String) (hB : 0 < B) :
    (makeBatches B l).flatten = l ∧
    (makeBatches B l).length = (l.length + B - 1) / B ∧
    (∀ b ∈ makeBatches B l, b.length ≤ B) ∧
    (∀ i, i + 1 < (makeBatches B l).length → ((makeBatches B l).getD i []).length = B) ∧
    makeBatches B [] = [] :=
  ⟨makeBatchesF_flatten B l.length l le_rfl,
   makeBatchesF_length B hB l.length l le_rfl,
   fun b hb => makeBatchesF_sizes B hB l.length l b hb,
   fun i hi => makeBatchesF_nonlast B hB l.length l le_rfl i hi,
   rfl⟩

/-- Witness for C7 at `B = 2`, `l = ["a","b","c"]`. -/
theorem batchPlannerContract_witness :
    0 < 2 ∧
    ((makeBatches 2 ["a", "b", "c"]).flatten = ["a", "b", "c"] ∧
     (makeBatches 2 ["a", "b", "c"]).length =
       ((["a", "b", "c"] : List String).length + 2 - 1) / 2 ∧
     (∀ b ∈ makeBatches 2 ["a", "b", "c"], b.length ≤ 2) ∧
     (∀ i, i + 1 < (makeBatches 2 ["a", "b", "c"]).length →
       ((makeBatches 2 ["a", "b", "c"]).getD i []).length = 2) ∧
     makeBatches 2 [] = []) :=
  ⟨by decide, batchPlannerContract 2 ["a", "b", "c"] (by decide)⟩

/-- C8 (confirmed). Rate-limit and failure classification for
`fetch_uniprot_data`: (1) the result depends only on the responses to attempts
`0 .. MAX_RETRIES - 1`, i.e. at most `MAX_RETRIES = 3` requests are ever made
for one batch; (2) if every attempt is rate-limited (429) the attempts
exhaust and the whole batch is returned unresolved with no records; (3) if,
after any run of 429 responses, an attempt within the retry budget receives
any other non-200 status, the call immediately returns no records and the
entire batch as unresolved. (The fixed 5-second pause has no observable effect
on the computed values and is not modelled.) -/
theorem fetchRetryClassification :
    (∀ (b : List String) (s s' : Nat → Response),
      (∀ i, i < MAX_RETRIES → s i = s' i) →
      fetch_uniprot_data b s = fetch_uniprot_data b s') ∧
    (∀ (b : List String) (s : Nat → Response),
      (∀ i, i < MAX_RETRIES → s i = Response.rateLimited) →
      fetch_uniprot_data b s = (none, b)) ∧
    (∀ (b : List String) (s : Nat → Response) (j c : Nat),
      j < MAX_RETRIES → (∀ i, i < j → s i = Response.rateLimited) →
      s j = Response.error c →
      fetch_uniprot_data b s = (none, b)) :=
  ⟨fun b s s' h => fetchAux_congr b MAX_RETRIES 0 s s' (fun i _ h2 => h i (by omega)),
   fun b s h => fetchAux_allRateLimited b MAX_RETRIES 0 s (fun i _ h2 => h i (by omega)),
   fun b s j c hj hrl herr =>
     fetchAux_errorAfterRateLimits b MAX_RETRIES 0 s j c (Nat.zero_le j) (by omega)
       (fun i _ h2 => hrl i h2) herr⟩

/-- Witness for C8: exhausting all three attempts on a constantly
rate-limited service returns the whole batch unresolved. -/
theorem fetchRetryClassification_witness :
    (∀ i, i < MAX_RETRIES → (fun _ : Nat => Response.rateLimited) i = Response.rateLimited) ∧
    fetch_uniprot_data ["P1"] (fun _ => Response.rateLimited) = (none, ["P1"]) :=
  ⟨fun _ _ => rfl,
   fetchRetryClassification.2.1 ["P1"] (fun _ => Response.rateLimited) (fun _ _ => rfl)⟩

/-- C4 (confirmed). Partial-success handling: for every batch and every 200
response whose set of leading-field values is a strict subset of the requested
batch, `fetch_uniprot_data` returns no records — the whole batch's rows are
discarded for the round — and an unresolved subset equal exactly to
`requested − returnedKeys`. -/
theorem fetchPartialSuccessMissingSet (batch : List String) (lines : List (List String))
    (hss : (retrievedIds lines).toFinset ⊂ batch.toFinset) :
    fetch_uniprot_data batch (fun _ => Response.ok lines) =
      (none, missingIdsOf batch (retrievedIds lines)) ∧
    (missingIdsOf batch (retrievedIds lines)).toFinset =
      batch.toFinset \ (retrievedIds lines).toFinset := by
  constructor
  · obtain ⟨x, hxb, hxr⟩ := Finset.exists_of_ssubset hss
    rw [List.mem_toFinset] at hxb hxr
    have hmem : x ∈ missingIdsOf batch (retrievedIds lines) := by
      simp [missingIdsOf, List.mem_filter, hxb, hxr]
    have hne : (missingIdsOf batch (retrievedIds lines)).isEmpty = false := by
      cases hmi : missingIdsOf batch (retrievedIds lines) with
      | nil => rw [hmi] at hmem; simp at hmem
      | cons y ys => simp
    show fetchAux batch (fun _ => Response.ok lines) 0 MAX_RETRIES = _
    simp only [MAX_RETRIES, fetchAux, hne]
    rfl
  · exact missingIdsOf_toFinset batch (retrievedIds lines)

/-! ### Helper lemmas: sentinel substitution -/

theorem ite_sentinel_ne_empty (s : String) :
    (if s = "" then "no information" else s) ≠ "" := by
  by_cases h : s = ""
  · simp only [if_pos h]; decide
  · simp only [if_neg h]; exact h

theorem splitCell_ne_empty (col_name value : String) :
    ∀ c ∈ splitCell col_name value, c ≠ "" := by
  intro c hc
  unfold splitCell at hc
  split at hc
  · simp only [List.mem_cons, List.not_mem_nil, or_false] at hc
    rcases hc with rfl | rfl
    · exact ite_sentinel_ne_empty _
    · exact ite_sentinel_ne_empty _
  · simp only [List.mem_cons, List.not_mem_nil, or_false] at hc
    subst hc
    exact ite_sentinel_ne_empty _

theorem procPairs_cells_ne_empty :
    ∀ (pairs : List (String × String)) (u : List String),
      ∀ c ∈ (procPairs pairs u).1, c ≠ "" := by
  intro pairs
  induction pairs with
  | nil => intro u c hc; simp [procPairs] at hc
  | cons p rest ih =>
    intro u c hc
    obtain ⟨col_name, value⟩ := p
    simp only [procPairs, List.mem_append] at hc
    rcases hc with hc | hc
    · exact splitCell_ne_empty col_name value c hc
    · exact ih _ c hc

theorem splitRowsAux_cells_ne_empty :
    ∀ (rows : List (List String)) (header u : List String),
      ∀ r ∈ (splitRowsAux rows header u).1, ∀ c ∈ r, c ≠ "" := by
  intro rows
  induction rows with
  | nil => intro header u r hr; simp [splitRowsAux] at hr
  | cons row rest ih =>
    intro header u r hr c hc
    simp only [splitRowsAux, List.mem_cons] at hr
    rcases hr with rfl | hr
    · exact procPairs_cells_ne_empty (header.zip row) u c hc
    · exact ih header _ r hr c hc

/-- C9 (confirmed). Sentinel substitution: every cell of every row produced by
`split_ids_from_descriptions` is non-empty — an empty value is never written —
and a field value that is empty is rendered as the literal
`"no information"` (shown here for the pass-through branch; the derived
`_id`/`_desc` values also pass through the same sentinel guard, as `splitCell`
shows, though a joined derived value of two or more entries always contains
`";"` and is never empty). -/
theorem sentinelSubstitution :
    (∀ (rows : List (List String)) (header : List String),
      ∀ r ∈ (split_ids_from_descriptions rows header).2, ∀ c ∈ r, c ≠ "") ∧
    (∀ col_name : String, col_name ∉ ID_FIELDS → splitCell col_name "" = ["no information"]) := by
  constructor
  · intro rows header r hr c hc
    exact splitRowsAux_cells_ne_empty rows header [] r hr c hc
  · intro col_name hcn
    unfold splitCell
    rw [if_neg (by intro h; exact hcn h.1)]
    rfl

/-- Witness for C9: an empty `organism_name` cell comes out as
`"no information"`, which is non-empty. -/
theorem sentinelSubstitution_witness :
    ["no information"] ∈ (split_ids_from_descriptions [[""]] ["organism_name"]).2 ∧
    "no information" ∈ (["no information"] : List String) ∧
    ("organism_name" : String) ∉ ID_FIELDS ∧
    "no information" ≠ "" ∧
    splitCell "organism_name" "" = ["no information"] :=
  ⟨by decide, by decide, by decide,
   sentinelSubstitution.1 [[""]] ["organism_name"] ["no information"] (by decide)
     "no information" (by decide),
   sentinelSubstitution.2 "organism_name" (by decide)⟩

/-! ### Helper lemmas: the always-failing service and non-termination -/

/-- A service whose every response is a 500 error: no identifier ever
resolves, in any round, on any attempt. -/
def failSvc : Nat → List String → Nat → Response := fun _ _ _ => Response.error 500

theorem process_batch_failSvc (round : Nat) (b : List String) (hw : Bool) :
    process_batch b (failSvc round b) hw = ([], b, hw) := rfl

/-- A fold whose step ignores the accumulator returns either the initial value
or the image of some list element (the last one consumed). -/
theorem foldl_overwrite {α β : Type} (f : α → β) :
    ∀ (l : List α) (init : β),
      l.foldl (fun _ r => f r) init = init ∨
      ∃ r ∈ l, l.foldl (fun _ r => f r) init = f r := by
  intro l
  induction l with
  | nil => intro init; left; rfl
  | cons x t ih =>
    intro init
    have hstep : (x :: t).foldl (fun _ r => f r) init = t.foldl (fun _ r => f r) (f x) := rfl
    rcases ih (f x) with h | ⟨r, hr, hfr⟩
    · right; exact ⟨x, List.mem_cons_self x t, by rw [hstep, h]⟩
    · right; exact ⟨r, List.mem_cons_of_mem x hr, by rw [hstep, hfr]⟩

/-- With the always-failing service, one round of main's while loop leaves
`all_missing_ids` non-empty whatever the consumption order: the final value is
either the round's input or some batch of the round, and batches are
non-empty. -/
theorem runRound_failSvc_nonempty (round : Nat) (W : List String) (hw : Bool)
    (order : List Nat) (hW : W ≠ []) :
    (runRound (failSvc round) W hw order).2.1 ≠ [] := by
  have hres : (runRound (failSvc round) W hw order).2.1 =
      ((order.filterMap (fun i =>
        ((makeBatches BATCH_SIZE W).map
          (fun b => process_batch b (failSvc round b) hw)).get? i)).foldl
        (fun _ r => (r.2.1, r.2.2)) (W, hw)).1 := rfl
  rw [hres]
  rcases foldl_overwrite (fun r : List (List String) × List String × Bool => (r.2.1, r.2.2))
      (order.filterMap (fun i =>
        ((makeBatches BATCH_SIZE W).map
          (fun b => process_batch b (failSvc round b) hw)).get? i)) (W, hw) with h | ⟨r, hr, hfr⟩
  · rw [h]; exact hW
  · rw [hfr]
    rw [List.mem_filterMap] at hr
    obtain ⟨i, _, hget⟩ := hr
    have hrmem := List.get?_mem hget
    rw [List.mem_map] at hrmem
    obtain ⟨b, hb, hpb⟩ := hrmem
    rw [process_batch_failSvc] at hpb
    have hbne : b ≠ [] := makeBatchesF_mem_ne_nil BATCH_SIZE W.length W b hb
    rw [← hpb]
    exact hbne

theorem mainLoop_failSvc (orders : Nat → List Nat) :
    ∀ (fuel round : Nat) (W : List String) (hw : Bool) (out : List (List String)),
      W ≠ [] → mainLoop failSvc orders fuel round W hw out = none := by
  intro fuel
  induction fuel with
  | zero => intro round W hw out _; rfl
  | succ n ih =>
    intro round W hw out hW
    have hWe : W.isEmpty = false := by
      cases W with
      | nil => exact absurd rfl hW
      | cons y ys => rfl
    simp only [mainLoop, hWe, Bool.false_eq_true, if_false]
    exact ih (round + 1) _ _ _ (runRound_failSvc_nonempty round W hw (orders round) hW)

/-- C10 (confirmed). Unbounded reconciliation: main's while loop has no round
ceiling — with a service that persistently fails to resolve the requested
identifiers (here: every request gets a 500), the loop never reaches the
empty-unresolved-set state: for every fuel bound and every scheduling of the
round's futures, the fueled loop model runs out of fuel (`none`) instead of
terminating, for any non-empty input. -/
theorem reconciliationUnbounded (uniprot_ids : List String) (h : uniprot_ids ≠ []) :
    ∀ (fuel : Nat) (orders : Nat → List Nat),
      mainModel failSvc orders uniprot_ids fuel = none :=
  fun fuel orders => mainLoop_failSvc orders fuel 0 uniprot_ids false [] h

/-- Witness for C10 at input `["P1"]` with fuel 4. -/
theorem reconciliationUnbounded_witness :
    (["P1"] : List String) ≠ [] ∧
    mainModel failSvc (fun _ => [0]) ["P1"] 4 = none :=
  ⟨by decide, reconciliationUnbounded ["P1"] (by decide) 4 (fun _ => [0])⟩

/-! ### Helper lemmas: row/schema conformance -/

/-- The output column names contributed by one `(col_name, value)` pair:
`<col>_id`/`<col>_desc` for a split compound pair, the column name itself
otherwise. -/
def cellNames (col_name value : String) : List String :=
  if col_name ∈ ID_FIELDS ∧ chContains ';' value = true then
    [col_name ++ "_id", col_name ++ "_desc"]
  else [col_name]

/-- The output column names contributed by a sequence of pairs, in order. -/
def pairsNames (pairs : List (String × String)) : List String :=
  (pairs.map (fun p => cellNames p.1 p.2)).flatten

/-- The output column names a whole row contributes given the raw header. -/
def rowNames (header row : List String) : List String :=
  pairsNames (header.zip row)

theorem splitCell_length (col_name value : String) :
    (splitCell col_name value).length = (cellNames col_name value).length := by
  by_cases h : col_name ∈ ID_FIELDS ∧ chContains ';' value = true
  · simp [splitCell, cellNames, h]
  · simp [splitCell, cellNames, h]

theorem procPairs_row_length :
    ∀ (pairs : List (String × String)) (u : List String),
      (procPairs pairs u).1.length = (pairsNames pairs).length := by
  intro pairs
  induction pairs with
  | nil => intro u; rfl
  | cons p rest ih =>
    intro u
    obtain ⟨c, v⟩ := p
    simp only [procPairs, pairsNames, List.map_cons, List.flatten_cons, List.length_append]
    rw [splitCell_length, ih]
    rfl

theorem headerAdd_new (col_name value : String) (u : List String)
    (h : ∀ n ∈ cellNames col_name value, n ∉ u) :
    headerAdd col_name value u = u ++ cellNames col_name value := by
  by_cases hc : col_name ∈ ID_FIELDS ∧ chContains ';' value = true
  · have hid : (col_name ++ "_id") ∉ u := h _ (by simp [cellNames, hc])
    simp [headerAdd, cellNames, hc, hid]
  · have hcn : col_name ∉ u := h _ (by simp [cellNames, hc])
    simp [headerAdd, cellNames, hc, hcn]

theorem headerAdd_old (col_name value : String) (u : List String)
    (h : ∀ n ∈ cellNames col_name value, n ∈ u) :
    headerAdd col_name value u = u := by
  by_cases hc : col_name ∈ ID_FIELDS ∧ chContains ';' value = true
  · have hid : (col_name ++ "_id") ∈ u := h _ (by simp [cellNames, hc])
    simp [headerAdd, hc, hid]
  · have hcn : col_name ∈ u := h _ (by simp [cellNames, hc])
    simp [headerAdd, hc, hcn]

theorem procPairs_header_new :
    ∀ (pairs : List (String × String)) (u : List String),
      (∀ n ∈ pairsNames pairs, n ∉ u) → (pairsNames pairs).Nodup →
      (procPairs pairs u).2 = u ++ pairsNames pairs := by
  intro pairs
  induction pairs with
  | nil => intro u _ _; simp [procPairs, pairsNames]
  | cons p rest ih =>
    intro u hnew hnd
    obtain ⟨c, v⟩ := p
    have hpn : pairsNames ((c, v) :: rest) = cellNames c v ++ pairsNames rest := rfl
    rw [hpn] at hnew hnd ⊢
    rw [List.nodup_append] at hnd
    obtain ⟨_, hnd2, hdisj⟩ := hnd
    have hnew2 : ∀ n ∈ pairsNames rest, n ∉ u ++ cellNames c v := by
      intro n hn hmem
      rw [List.mem_append] at hmem
      rcases hmem with h1 | h2
      · exact hnew n (List.mem_append_right _ hn) h1
      · exact hdisj h2 hn
    show (procPairs rest (headerAdd c v u)).2 = _
    rw [headerAdd_new c v u (fun n hn => hnew n (List.mem_append_left _ hn))]
    rw [ih (u ++ cellNames c v) hnew2 hnd2, List.append_assoc]

theorem procPairs_header_old :
    ∀ (pairs : List (String × String)) (u : List String),
      (∀ n ∈ pairsNames pairs, n ∈ u) → (procPairs pairs u).2 = u := by
  intro pairs
  induction pairs with
  | nil => intro u _; rfl
  | cons p rest ih =>
    intro u hold
    obtain ⟨c, v⟩ := p
    have hpn : pairsNames ((c, v) :: rest) = cellNames c v ++ pairsNames rest := rfl
    rw [hpn] at hold
    show (procPairs rest (headerAdd c v u)).2 = _
    rw [headerAdd_old c v u (fun n hn => hold n (List.mem_append_left _ hn))]
    exact ih u (fun n hn => hold n (List.mem_append_right _ hn))

/-- When every row contributes the same column names, already all present in
the accumulated header, the header is unchanged and every produced row has one
value per contributed name. -/
theorem splitRowsAux_uniform :
    ∀ (rows : List (List String)) (header u names : List String),
      (∀ r ∈ rows, rowNames header r = names) → (∀ n ∈ names, n ∈ u) →
      (splitRowsAux rows header u).2 = u ∧
      ∀ r' ∈ (splitRowsAux rows header u).1, r'.length = names.length := by
  intro rows
  induction rows with
  | nil =>
    intro header u names _ _
    exact ⟨rfl, by intro r' hr'; simp [splitRowsAux] at hr'⟩
  | cons row rest ih =>
    intro header u names huni hmem
    have hrow : rowNames header row = names := huni row (List.mem_cons_self _ _)
    have hP2 : (procPairs (header.zip row) u).2 = u := by
      refine procPairs_header_old (header.zip row) u ?_
      rw [show pairsNames (header.zip row) = rowNames header row from rfl, hrow]
      exact hmem
    have hrest := ih header u names (fun r hr => huni r (List.mem_cons_of_mem _ hr)) hmem
    constructor
    · have hsra : (splitRowsAux (row :: rest) header u).2 =
          (splitRowsAux rest header ((procPairs (header.zip row) u).2)).2 := rfl
      rw [hsra, hP2]
      exact hrest.1
    · intro r' hr'
      have hsra : (splitRowsAux (row :: rest) header u).1 =
          (procPairs (header.zip row) u).1 ::
            (splitRowsAux rest header ((procPairs (header.zip row) u).2)).1 := rfl
      rw [hsra, hP2] at hr'
      rcases List.mem_cons.mp hr' with hr' | hr'
      · rw [hr', procPairs_row_length,
          show pairsNames (header.zip row) = rowNames header row from rfl, hrow]
      · exact hrest.2 r' hr'

/-- C5 (corrected). Row/schema conformance as stated fails for batches whose
rows differ in which allow-listed compound fields contain `";"` (see the
counterexample); the amended claim: for every batch whose rows all contribute
the same duplicate-free sequence of output column names — in particular every
batch whose rows agree on which allow-listed compound fields contain the
delimiter, under a collision-free raw header — every row returned by
`split_ids_from_descriptions` has exactly one value per column of the
returned header. -/
theorem rowSchemaConformanceUniform (rows : List (List String))
    (header names : List String)
    (huni : ∀ r ∈ rows, rowNames header r = names) (hnd : names.Nodup) :
    ∀ r' ∈ (split_ids_from_descriptions rows header).2,
      r'.length = (split_ids_from_descriptions rows header).1.length := by
  cases rows with
  | nil => intro r' hr'; simp [split_ids_from_descriptions, splitRowsAux] at hr'
  | cons row rest =>
    have hrow : rowNames header row = names := huni row (List.mem_cons_self _ _)
    have hP2 : (procPairs (header.zip row) []).2 = names := by
      rw [procPairs_header_new (header.zip row) [] (by intro n _; simp)
        (by rw [show pairsNames (header.zip row) = rowNames header row from rfl, hrow]
            exact hnd)]
      rw [List.nil_append,
        show pairsNames (header.zip row) = rowNames header row from rfl, hrow]
    have hrest := splitRowsAux_uniform rest header names names
      (fun r hr => huni r (List.mem_cons_of_mem _ hr)) (fun _ hn => hn)
    have hhdr : (split_ids_from_descriptions (row :: rest) header).1 = names := by
      have h1 : (split_ids_from_descriptions (row :: rest) header).1 =
          (splitRowsAux rest header ((procPairs (header.zip row) []).2)).2 := rfl
      rw [h1, hP2]
      exact hrest.1
    intro r' hr'
    have h2 : (split_ids_from_descriptions (row :: rest) header).2 =
        (procPairs (header.zip row) []).1 ::
          (splitRowsAux rest header ((procPairs (header.zip row) []).2)).1 := rfl
    rw [h2, hP2] at hr'
    rw [hhdr]
    rcases List.mem_cons.mp hr' with hr' | hr'
    · rw [hr', procPairs_row_length,
        show pairsNames (header.zip row) = rowNames header row from rfl, hrow]
    · exact hrest.2 r' hr'

/-- Counterexample to C5 as stated: for a batch whose two rows differ in
whether the allow-listed `go` column contains `";"`, the returned header has
three columns while the returned rows have two and one values respectively —
the rows do not conform to the returned header. -/
theorem rowSchemaConformance_counterexample :
    split_ids_from_descriptions [["GO:1 a;GO:2 b"], ["x"]] ["go"] =
      (["go_id", "go_desc", "go"], [["GO:1;GO:2", "a;b"], ["x"]]) ∧
    ¬ (∀ r ∈ (split_ids_from_descriptions [["GO:1 a;GO:2 b"], ["x"]] ["go"]).2,
        r.length = (split_ids_from_descriptions [["GO:1 a;GO:2 b"], ["x"]] ["go"]).1.length) :=
  ⟨by decide, by decide⟩

/-- Witness for the amended C5: a uniform batch (both rows split the `go`
column) whose rows both come out with one value per returned header column. -/
theorem rowSchemaConformanceUniform_witness :
    (∀ r ∈ [["GO:1 a;GO:2 b"], ["GO:9 z;GO:8 y"]],
      rowNames ["go"] r = ["go_id", "go_desc"]) ∧
    (["go_id", "go_desc"] : List String).Nodup ∧
    (∀ r' ∈ (split_ids_from_descriptions [["GO:1 a;GO:2 b"], ["GO:9 z;GO:8 y"]] ["go"]).2,
      r'.length =
        (split_ids_from_descriptions [["GO:1 a;GO:2 b"], ["GO:9 z;GO:8 y"]] ["go"]).1.length) :=
  ⟨by decide, by decide,
   rowSchemaConformanceUniform [["GO:1 a;GO:2 b"], ["GO:9 z;GO:8 y"]] ["go"]
     ["go_id", "go_desc"] (by decide) (by decide)⟩

/-! ### Claim theorems: C6 (compound-field round-trip) -/

/-- C6 (corrected). Compound-field round-trip, amended: for the allow-listed
`go` column with value `"GO:1 processA;GO:2 processB"`,
`split_ids_from_descriptions` yields `go_id = "GO:1;GO:2"` and
`go_desc = "processA;processB"` (each entry split on its first space) — this
half of the claim holds; but for an entry lacking a description (no space),
the id portion is used as-is for the id value *and for the description value*:
the description portion is the entry itself, not the sentinel
`"no information"`. -/
theorem compoundFieldRoundTrip :
    split_ids_from_descriptions [["GO:1 processA;GO:2 processB"]] ["go"] =
      (["go_id", "go_desc"], [["GO:1;GO:2", "processA;processB"]]) ∧
    split_ids_from_descriptions [["GO:1 a;GO:3"]] ["go"] =
      (["go_id", "go_desc"], [["GO:1;GO:3", "a;GO:3"]]) :=
  ⟨by decide, by decide⟩

/-- Counterexample to C6 as stated: for the compound value `"GO:1 a;GO:3"`,
whose second entry `"GO:3"` lacks a description, the produced `go_desc` value
is `"a;GO:3"` — the entry itself in the description slot — and not
`"a;no information"` as the claim's sentinel clause requires. -/
theorem compoundFieldSentinel_counterexample :
    (split_ids_from_descriptions [["GO:1 a;GO:3"]] ["go"]).2 =
      [["GO:1;GO:3", "a;GO:3"]] ∧
    (split_ids_from_descriptions [["GO:1 a;GO:3"]] ["go"]).2 ≠
      [["GO:1;GO:3", "a;no information"]] :=
  ⟨by decide, by decide⟩

/-! ### Claim theorems: C1, C2, C3 (round aggregation, header, convergence) -/

/-- Eleven identifiers: with `BATCH_SIZE = 10` they form two batches, of sizes
ten and one. -/
def cexIds : List String := ["a", "b", "c", "d", "e", "f", "g", "h", "i", "j", "k"]

/-- The first batch of `cexIds` at `BATCH_SIZE = 10`. -/
def cexBatch1 : List String := ["a", "b", "c", "d", "e", "f", "g", "h", "i", "j"]

/-- A 200 response body that resolves exactly the requested batch: a header
line plus one line per requested identifier, led by that identifier. -/
def echoLines (batch : List String) : List (List String) :=
  [["accession"]] ++ batch.map (fun uid => [uid])

/-- Service for the C1 scenario: any multi-identifier batch gets a 500 error,
a singleton batch is fully resolved, in every round. -/
def cexSvcC1 : Nat → List String → Nat → Response :=
  fun _ batch _ =>
    if batch.length ≤ 1 then Response.ok (echoLines batch) else Response.error 500

/-- Service for the C2 scenario: every batch is fully resolved at once. -/
def cexSvcC2 : Nat → List String → Nat → Response :=
  fun _ batch _ => Response.ok (echoLines batch)

/-- Service for the C3 scenario: multi-identifier batches fail with a 500 in
round 0 only; from round 1 on every batch is fully resolved — every
identifier is resolvable within two rounds. -/
def cexSvcC3 : Nat → List String → Nat → Response :=
  fun round batch _ =>
    if round = 0 ∧ 1 < batch.length then Response.error 500
    else Response.ok (echoLines batch)

/-- C1 (code_bug), evaluated at the failing input. In round 0 over `cexIds`,
batch 1 (`a`–`j`) fails and its unresolved subset is all ten identifiers,
batch 2 (`k`) resolves; yet with batch 2's future consumed last, the set
driving the next round is `[]` — fetch.py line 145 *overwrites*
`all_missing_ids` with each future's result instead of accumulating the union
— so the run stops with `a`–`j` neither in the unresolved set nor among the
resolved output rows, violating the union and the coverage invariant the
claim states. -/
theorem roundAggregationOverwrites :
    (process_batch cexBatch1 (cexSvcC1 0 cexBatch1) false).2.1 = cexBatch1 ∧
    (runRound (cexSvcC1 0) cexIds false [0, 1]).2.1 = [] ∧
    mainModel cexSvcC1 (fun _ => [0, 1]) cexIds 3 = some [["Unique ID"], ["k"]] :=
  ⟨by decide, by decide, by decide⟩

/-- C2 (code_bug), evaluated at the failing input. With eleven identifiers and
every batch succeeding, round 0 submits both batches with the same
`header_written = False` (fetch.py line 141 passes the flag's value at
submission time to every future), so each successful batch writes its own
header line: the output contains the `"Unique ID"` header twice, not exactly
once as the claim states. -/
theorem headerWrittenTwicePerRound :
    mainModel cexSvcC2 (fun _ => [0, 1]) cexIds 2 =
      some [["Unique ID"], ["a"], ["b"], ["c"], ["d"], ["e"], ["f"], ["g"], ["h"],
            ["i"], ["j"], ["Unique ID"], ["k"]] ∧
    ((mainModel cexSvcC2 (fun _ => [0, 1]) cexIds 2).getD []).count ["Unique ID"] = 2 :=
  ⟨by decide, by decide⟩

/-- C3 (code_bug), evaluated at the failing input. The service resolves every
batch from round 1 on (first conjunct: batch 1 would be fully resolved if
re-requested), so every identifier is resolvable within two rounds; yet the
run terminates after round 0 with a single data row — ten of the eleven input
identifiers are silently dropped because fetch.py line 145 overwrote their
unresolved subset with the succeeding batch's empty one — so the final
resolved set does not equal the input set as the claim requires. -/
theorem convergenceFailsDespiteEventualResolution :
    cexSvcC3 1 cexBatch1 0 = Response.ok (echoLines cexBatch1) ∧
    mainModel cexSvcC3 (fun _ => [0, 1]) cexIds 5 = some [["Unique ID"], ["k"]] ∧
    ((mainModel cexSvcC3 (fun _ => [0, 1]) cexIds 5).getD []).length = 2 :=
  ⟨by decide, by decide, by decide⟩

/-- Witness for C4: batch `["P1","P2"]`, 200 response resolving only `P1`. -/
theorem fetchPartialSuccessMissingSet_witness :
    (retrievedIds [["accession"], ["P1"]]).toFinset ⊂
      (["P1", "P2"] : List String).toFinset ∧
    (fetch_uniprot_data ["P1", "P2"] (fun _ => Response.ok [["accession"], ["P1"]]) =
      (none, missingIdsOf ["P1", "P2"] (retrievedIds [["accession"], ["P1"]])) ∧
     (missingIdsOf ["P1", "P2"] (retrievedIds [["accession"], ["P1"]])).toFinset =
      (["P1", "P2"] : List String).toFinset \
        (retrievedIds [["accession"], ["P1"]]).toFinset) :=
  ⟨by decide,
   fetchPartialSuccessMissingSet ["P1", "P2"] [["accession"], ["P1"]] (by decide)⟩

end Funlink
